import Mathlib

/-!
Verification development for the AWS_Auto_Deployer build-and-deploy worker
(`src/lib/workers/deployWorker.js`).  The definitions below are shallow
embeddings of the worker's functions: filesystem access is modelled by an
explicit `FS` record of the calls the code makes (`readdirSync`,
`statSync(..).isDirectory()`, `existsSync`), subprocess and AWS calls by
their outcome values, and the job handle by the list of progress values and
log lines the code issues.
-/

namespace Deployer

/-- Filesystem as seen through the three operations the worker uses.
`readdir p = none` models `readdirSync` throwing; `isDir p = false` covers
both a non-directory entry and `statSync` throwing (the code treats the two
alike via `try/catch { continue }`). -/
structure FS where
  readdir : String → Option (List String)
  isDir : String → Bool
  existsAt : String → Bool

/-- `path.join(p, c)` as used by the worker (no normalisation is needed for
the joins the worker performs). -/
def pathJoin (p c : String) : String := p ++ "/" ++ c

/-- JS `s.startsWith(pre)`, computed on the character data. -/
def strStarts (s pre : String) : Bool := pre.data.isPrefixOf s.data

/-- JS `String.prototype.trim` on a character list (whitespace at both
ends; JS also trims some exotic Unicode spaces, irrelevant here). -/
def trimL (l : List Char) : List Char :=
  ((l.dropWhile Char.isWhitespace).reverse.dropWhile Char.isWhitespace).reverse

/-- JS `s.trim()` on strings. -/
def trimStr (s : String) : String := ⟨trimL s.data⟩

/-- JS `s.split(sep)` for a one-character separator (`''.split(c) = ['']`,
separators at the ends produce empty fields, exactly as in JS). -/
def splitOnChar (sep : Char) : List Char → List (List Char)
  | [] => [[]]
  | c :: t =>
    if c == sep then [] :: splitOnChar sep t
    else
      match splitOnChar sep t with
      | [] => [[c]]
      | h :: r => (c :: h) :: r

/-- JS `parts.join(sep)` for a one-character separator. -/
def joinChar (sep : Char) : List (List Char) → List Char
  | [] => []
  | [x] => x
  | x :: y :: t => x ++ sep :: joinChar sep (y :: t)

/-- Result of scanning one directory's entries inside `searchForFolder`
(deployWorker.js lines 178-198): either the target was found, or a list of
subdirectories to enqueue. -/
inductive ScanResult where
  | found (p : String)
  | pushes (l : List (String × Nat))

/-- The `for (const item of items)` body of `searchForFolder`
(deployWorker.js lines 178-198): skip hidden entries and `node_modules`,
return the first directory named `target`, and collect directories to push
when `depth < MAX_DEPTH` (`MAX_DEPTH = 3`). -/
def scanItems (fs : FS) (target p : String) (d : Nat) : List String → ScanResult
  | [] => .pushes []
  | item :: rest =>
    if strStarts item "." || item == "node_modules" then
      scanItems fs target p d rest
    else
      let itemPath := pathJoin p item
      if fs.isDir itemPath then
        if item == target then .found itemPath
        else if d < 3 then
          match scanItems fs target p d rest with
          | .found q => .found q
          | .pushes l => .pushes ((itemPath, d + 1) :: l)
        else scanItems fs target p d rest
      else scanItems fs target p d rest

/-- The `while (queue.length > 0)` loop of `searchForFolder`
(deployWorker.js lines 169-202), with an explicit fuel parameter as the
structural-termination device.  `none` means the fuel ran out (proved below
to be impossible for the fuel `searchFuel` supplies); `some r` means the
loop finished with result `r` (`r = none` is the fall-through `return null`).
The queue is FIFO (`queue.shift()` / `queue.push`), the visited set is
keyed by path. -/
def sffLoop (fs : FS) (target : String) : Nat → List (String × Nat) → List String → Option (Option String)
  | 0, _, _ => none
  | _ + 1, [], _ => some none
  | fuel + 1, (p, d) :: rest, visited =>
    if d > 3 || visited.contains p then
      sffLoop fs target fuel rest visited
    else
      match fs.readdir p with
      | none => sffLoop fs target fuel rest (p :: visited)
      | some items =>
        match scanItems fs target p d items with
        | .found q => some (some q)
        | .pushes newItems => sffLoop fs target fuel (rest ++ newItems) (p :: visited)

/-- All syntactic paths reachable from `base` in exactly `d` `readdir` steps
(an over-approximation of what the BFS can enqueue at depth `d`). -/
def levelPaths (fs : FS) (base : String) : Nat → List String
  | 0 => [base]
  | d + 1 => (levelPaths fs base d).flatMap fun p => ((fs.readdir p).getD []).map (pathJoin p)

/-- Number of entries `readdir` yields at `p` (0 if it throws). -/
def entryWeight (fs : FS) (p : String) : Nat := ((fs.readdir p).getD []).length

/-- All paths the BFS can ever process (depth 0 through `MAX_DEPTH = 3`). -/
def allSearchPaths (fs : FS) (base : String) : List String :=
  levelPaths fs base 0 ++ levelPaths fs base 1 ++ levelPaths fs base 2 ++ levelPaths fs base 3

/-- Remaining work the queue can still generate given the visited set. -/
def capacity (fs : FS) (base : String) (visited : List String) : Nat :=
  (((allSearchPaths fs base).filter (fun q => !visited.contains q)).map (entryWeight fs)).sum

/-- Fuel sufficient for `sffLoop` to run the real loop to completion. -/
def searchFuel (fs : FS) (base : String) : Nat :=
  2 + ((allSearchPaths fs base).map (entryWeight fs)).sum

/-- `searchForFolder` with the loop-completion marker kept
(deployWorker.js lines 164-205). -/
def searchForFolderRaw (fs : FS) (base target : String) : Option (Option String) :=
  sffLoop fs target (searchFuel fs base) [(base, 0)] []

/-- `searchForFolder(basePath, targetFolderName)` (deployWorker.js lines
164-205): `some path` when a directory named `target` is found, `none`
otherwise. -/
def searchForFolder (fs : FS) (base target : String) : Option String :=
  (searchForFolderRaw fs base target).getD none

/-- Build-directory resolution inside `buildAndDeploy` (deployWorker.js
lines 291-320).  The thrown `Error` `Folder "<buildPath>" not found in
repository` together with the `Available folders: ...` log line is modelled
as the error payload `(buildPath, top-level directory names)`.  The
`rootContents` read at line 287 is `readdirSync(tempClonePath)`. -/
def resolveBuildRoot (fs : FS) (root buildPath : String) : Except (String × List String) String :=
  if trimStr buildPath = "" then .ok root
  else
    let directPath := pathJoin root buildPath
    if fs.existsAt directPath && fs.isDir directPath then .ok directPath
    else
      match searchForFolder fs root buildPath with
      | some foundPath => .ok foundPath
      | none =>
          .error (buildPath,
            ((fs.readdir root).getD []).filter (fun f => fs.isDir (pathJoin root f)))

/-! ### Environment-variable composition (deployWorker.js lines 359-430) -/

/-- The per-line parse of the custom environment block
(deployWorker.js lines 384-407): trim; skip blank lines and `#` comments;
a line must contain `=`; the text before the first `=` (trimmed) is the
key, the rest rejoined on `=` (trimmed) is the value; an empty key is
skipped.  `none` means the line contributes nothing. -/
def parseLine (line : List Char) : Option (String × String) :=
  let t := trimL line
  if t = [] then none
  else if ("#".data).isPrefixOf t then none
  else
    match splitOnChar '=' t with
    | key :: v :: rest =>
      if trimL key = [] then none
      else some (⟨trimL key⟩, ⟨trimL (joinChar '=' (v :: rest))⟩)
    | _ => none

/-- `envVariables.split('\n')` processed line by line (deployWorker.js
lines 380-408); the `if (envVariables)` truthiness guard skips an empty
block. -/
def parseEnvBlock (envVariables : String) : List (String × String) :=
  if envVariables = "" then []
  else (splitOnChar '\n' envVariables.data).filterMap parseLine

/-- JS object assignment `m[k] = v` on a key-value list: replace the first
binding of `k` (keys are unique in the object, so this is exactly JS
semantics), otherwise append. -/
def setKey : List (String × String) → String → String → List (String × String)
  | [], k, v => [(k, v)]
  | kv :: t, k, v => if kv.1 == k then (k, v) :: t else kv :: setKey t k v

/-- JS object read `m[k]`: the value at the first binding of `k`. -/
def getKey : List (String × String) → String → Option String
  | [], _ => none
  | kv :: t, k => if kv.1 == k then some kv.2 else getKey t k

/-- Apply a sequence of assignments in order (the loop at deployWorker.js
lines 384-407 mutating `buildEnv`). -/
def applyAssigns (m : List (String × String)) (l : List (String × String)) : List (String × String) :=
  l.foldl (fun acc kv => setKey acc kv.1 kv.2) m

/-- The value of the last assignment to `k` in the sequence `l`, if any. -/
def lastAssign (l : List (String × String)) (k : String) : Option String :=
  getKey l.reverse k

/-- The `envContent +=` text for a list of parsed key-value pairs
(deployWorker.js line 398). -/
def envLines : List (String × String) → String
  | [] => ""
  | kv :: t => kv.1 ++ "=" ++ kv.2 ++ "\n" ++ envLines t

/-- The composed environment (deployWorker.js lines 360-408): the dotenv
text blob, the assignment sequence applied to `buildEnv`, and
`envVarsCount`.  A non-empty backend URL contributes the three
framework-prefixed lines/keys and counts 3. -/
def composeEnvironment (backendUrl envVariables : String) : String × List (String × String) × Nat :=
  let backendPart :=
    if backendUrl = "" then ""
    else "REACT_APP_API_URL=" ++ backendUrl ++ "\n" ++
         "VITE_API_URL=" ++ backendUrl ++ "\n" ++
         "NEXT_PUBLIC_API_URL=" ++ backendUrl ++ "\n"
  let backendAssigns :=
    if backendUrl = "" then []
    else [("REACT_APP_API_URL", backendUrl), ("VITE_API_URL", backendUrl),
          ("NEXT_PUBLIC_API_URL", backendUrl)]
  let parsed := parseEnvBlock envVariables
  let count := (if backendUrl = "" then 0 else 3) + parsed.length
  (backendPart ++ envLines parsed, backendAssigns ++ parsed, count)

/-- Result of the environment stage: the three dotenv files written at the
build root (`none` = not written because `envContent` was empty,
deployWorker.js lines 411-430), and the subprocess environment passed to
`npm install` (line 439) and `npm run build` (line 466) — in the code the
same `buildEnv` object is passed to both. -/
structure EnvStage where
  envFile : Option String
  envProductionFile : Option String
  envLocalFile : Option String
  installEnv : List (String × String)
  buildEnv : List (String × String)
  reportedCount : Nat
deriving DecidableEq

/-- The environment stage of `buildAndDeploy` (deployWorker.js lines
359-430): `processEnv` is the ambient `process.env` the code spreads into
`buildEnv` at line 362. -/
def runEnvStage (processEnv : List (String × String)) (backendUrl envVariables : String) : EnvStage :=
  let c := composeEnvironment backendUrl envVariables
  let benv := applyAssigns processEnv c.2.1
  if c.1 = "" then ⟨none, none, none, benv, benv, c.2.2⟩
  else ⟨some c.1, some c.1, some c.1, benv, benv, c.2.2⟩

/-! ### Vite config patching (`fixViteConfig`, deployWorker.js lines 64-117)

The regex rewrites are embedded as character-list scanners that follow the
JS regexes exactly: `/base:\s*['"][^'"]*['"]/g` and the two first-match
injection patterns `/defineConfig\(\s*\x7b/` and `/export default\s*\x7b/`. -/

/-- Single-quote character (written via its code point). -/
def squote : Char := Char.ofNat 39

/-- Double-quote character. -/
def dquote : Char := Char.ofNat 34

/-- Opening brace character. -/
def obrace : Char := Char.ofNat 123

def isQuote (c : Char) : Bool := c == squote || c == dquote

/-- `hay.includes(sub)` on character lists. -/
def subOccursL (sub : List Char) : List Char → Bool
  | [] => sub.isEmpty
  | c :: t => sub.isPrefixOf (c :: t) || subOccursL sub t

/-- `hay.includes(sub)` on strings. -/
def strOccurs (hay sub : String) : Bool := subOccursL sub.toList hay.toList

/-- Match `['"][^'"]*['"]` at the head of `l`; return the remainder. -/
def afterQuoted (l : List Char) : Option (List Char) :=
  match l with
  | [] => none
  | c :: rest =>
    if isQuote c then
      match rest.dropWhile (fun d => !isQuote d) with
      | [] => none
      | _ :: rest3 => some rest3
    else none

/-- Match `base:\s*['"][^'"]*['"]` at the head of `l`; return the
remainder after the match. -/
def matchBaseAt (l : List Char) : Option (List Char) :=
  if ("base:".toList).isPrefixOf l then
    afterQuoted ((l.drop 5).dropWhile Char.isWhitespace)
  else none

/-- The replacement text `base: './'`. -/
def baseRepl : List Char := "base: \x27./\x27".toList

/-- Global replace of the base-literal regex, scanning left to right and
resuming after each match, driven by a character-count fuel (each step
consumes at least one character, so `fuel = length` runs the scan to the
end exactly as `String.replace` with the `g` flag does). -/
def replaceBaseGo : Nat → List Char → List Char
  | 0, l => l
  | _ + 1, [] => []
  | fuel + 1, c :: rest =>
    match matchBaseAt (c :: rest) with
    | some r => baseRepl ++ replaceBaseGo fuel r
    | none => c :: replaceBaseGo fuel rest

def replaceBaseAll (l : List Char) : List Char := replaceBaseGo l.length l

/-- Match `pat` followed by `\s*` followed by an opening brace at the head
of `l`; return the remainder after the brace. -/
def matchOpenBrace (pat l : List Char) : Option (List Char) :=
  if pat.isPrefixOf l then
    match (l.drop pat.length).dropWhile Char.isWhitespace with
    | c :: rest => if c == obrace then some rest else none
    | [] => none
  else none

/-- First-occurrence replace for the two injection regexes. -/
def replaceFirstPat (pat repl : List Char) : List Char → List Char
  | [] => []
  | c :: rest =>
    match matchOpenBrace pat (c :: rest) with
    | some r => repl ++ r
    | none => c :: replaceFirstPat pat repl rest

def dcPat : List Char := "defineConfig(".toList
def dcRepl : List Char := "defineConfig(\x7b\n  base: \x27./\x27,".toList
def edPat : List Char := "export default".toList
def edRepl : List Char := "export default \x7b\n  base: \x27./\x27,".toList

/-- The config-content transformation of `fixViteConfig`
(deployWorker.js lines 75-103): an existing `base:` triggers the literal
rewrite; otherwise `base: './'` is injected after `defineConfig(\x7b` or
`export default \x7b` (literal substring checks, as in the code); otherwise
the content is written back unchanged. -/
def patchViteContent (c : String) : String :=
  if strOccurs c "base:" then ⟨replaceBaseAll c.toList⟩
  else if strOccurs c "defineConfig(\x7b" then ⟨replaceFirstPat dcPat dcRepl c.toList⟩
  else if strOccurs c "export default \x7b" then ⟨replaceFirstPat edPat edRepl c.toList⟩
  else c

/-- The minimal config created when no vite config exists
(deployWorker.js lines 108-115). -/
def newViteConfig : String :=
  "import \x7b defineConfig \x7d from \x27vite\x27\n\nexport default defineConfig(\x7b\n  base: \x27./\x27,\n\x7d)\n"

/-- `fixViteConfig` (deployWorker.js lines 64-117): the inputs are the
contents of `vite.config.js` / `vite.config.ts` when those files exist;
the result is the file name written and its new content.  `vite.config.js`
is preferred, and when neither exists the minimal config is created at
`vite.config.js`. -/
def fixViteConfig (jsConfig tsConfig : Option String) : String × String :=
  match jsConfig with
  | some c => ("vite.config.js", patchViteContent c)
  | none =>
    match tsConfig with
    | some c => ("vite.config.ts", patchViteContent c)
    | none => ("vite.config.js", newViteConfig)

/-! ### Build-output location (deployWorker.js lines 476-491) -/

/-- The recognised output directory candidates, in probe order. -/
def possibleBuildDirs : List String := ["dist", "build", "out", ".next"]

/-- The build-output locator (deployWorker.js lines 476-491): the first
existing candidate wins; when none exists the code logs a warning and
falls back to the build directory itself — it does not fail. -/
def locateBuildOutput (fs : FS) (buildDirectory : String) : String :=
  match possibleBuildDirs.find? (fun d => fs.existsAt (pathJoin buildDirectory d)) with
  | some d => pathJoin buildDirectory d
  | none => buildDirectory

/-! ### Progress reporting (deployWorker.js lines 263-556) -/

/-- `75 + Math.floor((uploadedCount / totalFiles) * 20)`
(deployWorker.js line 527), with exact integer arithmetic. -/
def uploadProgress (totalFiles uploadedCount : Nat) : Nat :=
  75 + (20 * uploadedCount) / totalFiles

/-- The per-file progress updates of the upload loop (one per uploaded
file, deployWorker.js line 528). -/
def uploadProgressSeq (totalFiles : Nat) : List Nat :=
  (List.range totalFiles).map (fun i => uploadProgress totalFiles (i + 1))

/-- The full sequence of `job.updateProgress` values for one run, by code
path: 5 (start), 15 (clone done); without a manifest straight to 75; with a
manifest 20/40 around `npm install` (40 alone when there are no
dependencies), 50 after config fix, 70 after a build script and 75 once
artifacts are located; then the upload interpolation, the fixed 95, and 100
at cleanup.  `hasDistribution` is carried because the claim ties the upload
interpolation to it; the code issues no progress call in the invalidation
stage, so the trace does not depend on it. -/
def progressTrace (hasPackageJson hasDependencies hasBuildScript : Bool)
    (totalFiles : Nat) (hasDistribution : Bool) : List Nat :=
  [5, 15] ++
  (if hasPackageJson then
    (if hasDependencies then [20, 40] else [40]) ++ [50] ++
      (if hasBuildScript then [70, 75] else [75])
   else [75]) ++
  (uploadProgressSeq totalFiles ++ [95, 100])

/-! ### CloudFront invalidation and the success result
(deployWorker.js lines 37-59 and 539-582) -/

/-- `invalidateDeploymentCache` (deployWorker.js lines 37-59): the
`cloudfront.send` outcome is the input; an error is caught, logged and
turned into `false` — never rethrown. -/
def invalidateDeploymentCache (sendResult : Except String Unit) : Bool × List String :=
  match sendResult with
  | .ok _ => (true, [])
  | .error e => (false, ["Error invalidating cache: " ++ e])

/-- The direct S3 URL of the result (deployWorker.js line 558). -/
def s3DirectUrl (bucket region deploymentId : String) : String :=
  "https://" ++ bucket ++ ".s3." ++ region ++ ".amazonaws.com/" ++ deploymentId ++ "/index.html"

/-- What the invalidation stage and the returned result determine
(deployWorker.js lines 539-582): job success, the nullable CloudFront URL,
the always-present direct S3 URL, and the stage's log lines. -/
structure DeployOutcome where
  succeeded : Bool
  cloudFrontUrl : Option String
  s3Url : String
  stageLogs : List String
deriving DecidableEq

/-- The tail of the success path (deployWorker.js lines 539-582): when a
distribution id is configured the cache invalidation is attempted; on
failure the job still completes, the CloudFront URL stays `null` and the
direct S3 URL is the fallback. -/
def finishDeploy (distributionId : Option String) (sendResult : Except String Unit)
    (cfDomain bucket region deploymentId : String) : DeployOutcome :=
  match distributionId with
  | none => ⟨true, none, s3DirectUrl bucket region deploymentId, []⟩
  | some _ =>
    let r := invalidateDeploymentCache sendResult
    let logs := ["Invalidating CloudFront cache..."] ++ r.2 ++
      (if r.1 then ["Cache invalidated"] else [])
    if r.1 then
      ⟨true, some ("https://" ++ cfDomain ++ "/" ++ deploymentId ++ "/index.html"),
        s3DirectUrl bucket region deploymentId, logs⟩
    else
      ⟨true, none, s3DirectUrl bucket region deploymentId, logs⟩

/-! ### The failure path (deployWorker.js lines 584-600) -/

/-- Observable outcome of the `catch` block. -/
structure FailureOutcome where
  logs : List String
  attemptedTempRemoval : Bool
  attemptedDistRemoval : Bool
  cleanupErrorLogged : Bool
  rethrown : String
deriving DecidableEq

/-- The `catch (error)` block of `buildAndDeploy` (deployWorker.js lines
584-600): log the error marker and message; inside one `try`, remove the
temp clone dir if it exists, then remove the final dist dir if it exists;
a single `catch` logs any cleanup error; finally rethrow the original
error.  `rmTempError`/`rmDistError` are the outcomes `fsPromises.rm` would
have (`some e` = the removal throws `e`). -/
def handleFailure (errMsg : String) (tempExists distExists : Bool)
    (rmTempError rmDistError : Option String) : FailureOutcome :=
  let logs := ["=== ERROR ===", errMsg]
  if tempExists then
    match rmTempError with
    | some e => ⟨logs ++ ["Cleanup error: " ++ e], true, false, true, errMsg⟩
    | none =>
      if distExists then
        match rmDistError with
        | some e => ⟨logs ++ ["Cleanup error: " ++ e], true, true, true, errMsg⟩
        | none => ⟨logs, true, true, false, errMsg⟩
      else ⟨logs, true, false, false, errMsg⟩
  else
    if distExists then
      match rmDistError with
      | some e => ⟨logs ++ ["Cleanup error: " ++ e], false, true, true, errMsg⟩
      | none => ⟨logs, false, true, false, errMsg⟩
    else ⟨logs, false, false, false, errMsg⟩

/-! ### Branch checkout (deployWorker.js lines 250-283) -/

/-- The destructuring default `branch = "main"` (deployWorker.js line 254):
an absent field becomes `"main"`; an explicit empty string stays empty. -/
def effectiveBranch (branch : Option String) : String := branch.getD "main"

/-- The guard `branch && branch !== "main" && branch !== "master"`
(deployWorker.js line 280). -/
def shouldCheckoutBranch (branch : Option String) : Bool :=
  let b := effectiveBranch branch
  !(b == "") && !(b == "main") && !(b == "master")

/-- The checkout commands issued after cloning (deployWorker.js lines
280-283): exactly one `git checkout` when the guard passes, none
otherwise. -/
def checkoutCommands (tempClonePath : String) (branch : Option String) : List String :=
  if shouldCheckoutBranch branch then
    ["cd \"" ++ tempClonePath ++ "\" && git checkout " ++ effectiveBranch branch]
  else []

/-! ### Concrete filesystems used as witnesses -/

/-- A filesystem on which every access fails / nothing exists. -/
def fsNone : FS := ⟨fun _ => none, fun _ => false, fun _ => false⟩

/-! ## Claim C1 (failure handling and cleanup) -/

/-- C1 counterexample: the claim says each removal is independently
guarded so that a failure to remove one does not prevent attempting the
other.  In the code both removals sit in a single `try` block
(deployWorker.js lines 588-597): when removing the temp clone directory
throws, the artifact directory — though it exists — is never attempted. -/
theorem c1_cleanup_not_independent_cex :
    (handleFailure "boom" true true (some "EACCES") none).attemptedDistRemoval = false ∧
    (handleFailure "boom" true true (some "EACCES") none).attemptedTempRemoval = true ∧
    (handleFailure "boom" true true (some "EACCES") none).rethrown = "boom" := by
  decide

/-- C1 amended: on any error the pipeline logs the `=== ERROR ===` marker
and the error message, then attempts removal of the temp clone directory
and the artifact directory inside one shared guard: if removing the clone
directory throws, removal of the artifact directory is skipped; a cleanup
failure is logged and never masks the original error, which is rethrown
unchanged in every case. -/
theorem c1_failure_cleanup_spec (errMsg : String) (te de : Bool)
    (rte rde : Option String) :
    (handleFailure errMsg te de rte rde).rethrown = errMsg ∧
    (handleFailure errMsg te de rte rde).logs.take 2 = ["=== ERROR ===", errMsg] ∧
    (handleFailure errMsg te de rte rde).attemptedTempRemoval = te ∧
    (te = true → rte.isSome = true →
      (handleFailure errMsg te de rte rde).attemptedDistRemoval = false ∧
      (handleFailure errMsg te de rte rde).cleanupErrorLogged = true) ∧
    (te = true → rte = none →
      (handleFailure errMsg te de rte rde).attemptedDistRemoval = de) ∧
    (te = false → (handleFailure errMsg te de rte rde).attemptedDistRemoval = de) := by
  cases te <;> cases de <;> cases rte <;> cases rde <;>
    simp [handleFailure]

/-- Witness for `c1_failure_cleanup_spec` at a concrete input. -/
theorem c1_failure_cleanup_spec_witness :
    (handleFailure "boom" true false none none).attemptedDistRemoval = false ∧
    (handleFailure "boom" true false none none).rethrown = "boom" := by
  have h := c1_failure_cleanup_spec "boom" true false none none
  exact ⟨h.2.2.2.2.1 rfl rfl, h.1⟩

/-! ## Claim C2 (artifact location when no candidate exists) -/

/-- C2 counterexample: the claim says the pipeline fails with
`ArtifactLocateFailed` when none of `dist`, `build`, `out`, `.next`
exists after the build.  The code instead logs a warning and falls back to
the build directory itself (deployWorker.js lines 488-491) and proceeds to
upload: on a filesystem where no candidate exists, the locator returns the
build directory rather than an error. -/
theorem c2_artifact_locate_cex :
    locateBuildOutput fsNone "/b" = "/b" ∧
    (∀ d ∈ possibleBuildDirs, fsNone.existsAt (pathJoin "/b" d) = false) := by
  decide

/-- C2 amended: when the build succeeds but none of the recognised output
candidates (`dist`, `build`, `out`, `.next`) exists at the build root, the
pipeline does not fail — it logs a warning and uses the build directory
itself as the upload root; when some candidate exists, the first existing
candidate in probe order is used. -/
theorem c2_artifact_locate_spec (fs : FS) (bd : String) :
    ((∀ d ∈ possibleBuildDirs, fs.existsAt (pathJoin bd d) = false) →
      locateBuildOutput fs bd = bd) ∧
    (∀ d, possibleBuildDirs.find? (fun c => fs.existsAt (pathJoin bd c)) = some d →
      locateBuildOutput fs bd = pathJoin bd d) := by
  constructor
  · intro h
    have hn : possibleBuildDirs.find? (fun c => fs.existsAt (pathJoin bd c)) = none := by
      rw [List.find?_eq_none]
      intro x hx
      simp [h x hx]
    simp [locateBuildOutput, hn]
  · intro d hd
    simp [locateBuildOutput, hd]

/-- Witness for `c2_artifact_locate_spec` at a concrete input. -/
theorem c2_artifact_locate_spec_witness : locateBuildOutput fsNone "/app2" = "/app2" :=
  (c2_artifact_locate_spec fsNone "/app2").1 (by decide)

/-! ## Claim C9 (invalidation failure is non-fatal) -/

/-- C9: when a distribution id is configured and the invalidation request
fails, the job still completes: the failure is logged and not propagated
(`invalidateDeploymentCache` returns `false` instead of throwing,
deployWorker.js lines 55-58), the result's CloudFront URL is `null`, and
the result still carries the direct S3 URL (deployWorker.js lines
539-582). -/
theorem c9_invalidation_nonfatal_spec (d e cf b rg dep : String) :
    invalidateDeploymentCache (.error e) = (false, ["Error invalidating cache: " ++ e]) ∧
    (finishDeploy (some d) (.error e) cf b rg dep).succeeded = true ∧
    (finishDeploy (some d) (.error e) cf b rg dep).cloudFrontUrl = none ∧
    (finishDeploy (some d) (.error e) cf b rg dep).s3Url = s3DirectUrl b rg dep ∧
    ("Error invalidating cache: " ++ e) ∈
      (finishDeploy (some d) (.error e) cf b rg dep).stageLogs := by
  refine ⟨rfl, ?_, ?_, ?_, ?_⟩ <;>
    simp [finishDeploy, invalidateDeploymentCache]

/-! ## Claim C10 (branch checkout condition) -/

/-- C10: no checkout command is issued when the branch field is absent,
empty, `main` or `master`; a checkout is issued exactly when the value is
non-empty and differs from both `main` and `master`
(deployWorker.js lines 254, 280-283). -/
theorem c10_branch_checkout_spec (p : String) (branch : Option String) :
    (checkoutCommands p branch ≠ [] ↔
      ∃ b, branch = some b ∧ b ≠ "" ∧ b ≠ "main" ∧ b ≠ "master") ∧
    checkoutCommands p none = [] ∧ checkoutCommands p (some "") = [] ∧
    checkoutCommands p (some "main") = [] ∧ checkoutCommands p (some "master") = [] := by
  have hnone : shouldCheckoutBranch none = false := by decide
  have hempty : shouldCheckoutBranch (some "") = false := by decide
  have hmain : shouldCheckoutBranch (some "main") = false := by decide
  have hmaster : shouldCheckoutBranch (some "master") = false := by decide
  refine ⟨?_, by simp [checkoutCommands, hnone], by simp [checkoutCommands, hempty],
    by simp [checkoutCommands, hmain], by simp [checkoutCommands, hmaster]⟩
  cases branch with
  | none => simp [checkoutCommands, hnone]
  | some b =>
    by_cases h1 : b = "" <;> by_cases h2 : b = "main" <;> by_cases h3 : b = "master" <;>
      simp [checkoutCommands, shouldCheckoutBranch, effectiveBranch, h1, h2, h3]

/-- Witness for `c10_branch_checkout_spec` at concrete inputs. -/
theorem c10_branch_checkout_spec_witness :
    checkoutCommands "/t" (some "dev") ≠ [] ∧ checkoutCommands "/t" (some "main") = [] := by
  refine ⟨(c10_branch_checkout_spec "/t" (some "dev")).1.mpr
    ⟨"dev", rfl, by decide, by decide, by decide⟩,
    (c10_branch_checkout_spec "/t" (some "main")).2.2.2.1⟩

/-! ## Key-value map lemmas shared by C5 and C7 -/

theorem getKey_setKey (m : List (String × String)) (k' v k : String) :
    getKey (setKey m k' v) k = if k = k' then some v else getKey m k := by
  induction m with
  | nil =>
    by_cases h : k = k'
    · simp [setKey, getKey, h]
    · simp [setKey, getKey, h, beq_iff_eq]
      exact fun hc => h hc.symm
  | cons kv t ih =>
    by_cases h1 : kv.1 = k'
    · by_cases h2 : k = k'
      · subst h2; simp [setKey, getKey, h1]
      · have h3 : ¬ kv.1 = k := by rw [h1]; exact fun hc => h2 hc.symm
        have h4 : ¬ k' = k := fun hc => h2 hc.symm
        simp [setKey, getKey, h1, h2, h3, h4, beq_iff_eq]
    · by_cases h3 : kv.1 = k
      · have h2 : ¬ k = k' := by rw [← h3]; exact h1
        simp [setKey, getKey, h1, h2, h3, beq_iff_eq]
      · simp [setKey, getKey, h1, h3, beq_iff_eq, ih]

theorem getKey_append (l₁ l₂ : List (String × String)) (k : String) :
    getKey (l₁ ++ l₂) k =
      match getKey l₁ k with
      | some v => some v
      | none => getKey l₂ k := by
  induction l₁ with
  | nil => simp [getKey]
  | cons kv t ih =>
    by_cases h : kv.1 = k <;> simp [getKey, h, ih, beq_iff_eq]

theorem lastAssign_cons (kv : String × String) (t : List (String × String)) (k : String) :
    lastAssign (kv :: t) k =
      match lastAssign t k with
      | some v => some v
      | none => if kv.1 == k then some kv.2 else none := by
  simp only [lastAssign, List.reverse_cons, getKey_append]
  cases h : getKey t.reverse k <;> simp [getKey]

theorem getKey_applyAssigns (l : List (String × String)) :
    ∀ (m : List (String × String)) (k : String),
      getKey (applyAssigns m l) k =
        match lastAssign l k with
        | some v => some v
        | none => getKey m k := by
  induction l with
  | nil => intro m k; simp [applyAssigns, lastAssign, getKey]
  | cons kv t ih =>
    intro m k
    have h1 : applyAssigns m (kv :: t) = applyAssigns (setKey m kv.1 kv.2) t := rfl
    rw [h1, ih, lastAssign_cons]
    cases h : lastAssign t k with
    | some v => simp
    | none =>
      simp only [getKey_setKey]
      by_cases h2 : k = kv.1
      · simp [h2, beq_iff_eq]
      · have h3 : ¬ kv.1 = k := fun hc => h2 hc.symm
        simp [h2, h3, beq_iff_eq]

/-! ## Claim C5 (environment block parsing) -/

/-- C5: line-by-line parsing of the free-text environment block
(deployWorker.js lines 380-408): blank and `#` lines are skipped; the text
before the first `=` (trimmed) is the key and everything after (rejoined,
trimmed) is the value, so `A=B=C` yields `A` / `B=C`; a line without `=`
is skipped and contributes nothing; when the same key occurs on several
lines, the map built by the JS-object assignments holds the last
occurrence; applying the parse of the same block twice leaves the map
unchanged. -/
theorem c5_env_parsing_spec :
    (∀ line : List Char, trimL line = [] → parseLine line = none) ∧
    (∀ line : List Char, ("#".data).isPrefixOf (trimL line) = true → parseLine line = none) ∧
    parseLine "A=B=C".data = some ("A", "B=C") ∧
    (∀ line : List Char, (splitOnChar '=' (trimL line)).length = 1 → parseLine line = none) ∧
    (∀ (block : String) (p : List (String × String)) (k : String),
      getKey (applyAssigns p (parseEnvBlock block)) k =
        match lastAssign (parseEnvBlock block) k with
        | some v => some v
        | none => getKey p k) ∧
    (∀ (block : String) (p : List (String × String)) (k : String),
      getKey (applyAssigns (applyAssigns p (parseEnvBlock block)) (parseEnvBlock block)) k =
        getKey (applyAssigns p (parseEnvBlock block)) k) := by
  refine ⟨?_, ?_, by decide, ?_, ?_, ?_⟩
  · intro line h; simp [parseLine, h]
  · intro line h
    by_cases h0 : trimL line = [] <;> simp [parseLine, h0, h]
  · intro line h
    rcases hl : splitOnChar '=' (trimL line) with _ | ⟨x, _ | ⟨y, r⟩⟩
    · rw [hl] at h; simp at h
    · by_cases h0 : trimL line = [] <;>
        by_cases h1 : ("#".data).isPrefixOf (trimL line) <;>
        simp [parseLine, h0, h1, hl]
    · rw [hl] at h; simp at h
  · intro block p k; exact getKey_applyAssigns _ p k
  · intro block p k
    rw [getKey_applyAssigns, getKey_applyAssigns]
    cases h : lastAssign (parseEnvBlock block) k <;> simp

/-- Witness for `c5_env_parsing_spec` at concrete inputs. -/
theorem c5_env_parsing_spec_witness :
    parseLine "   ".data = none ∧ parseLine "A=B=C".data = some ("A", "B=C") ∧
    getKey (applyAssigns [] (parseEnvBlock "X=1\nX=2")) "X" = some "2" := by
  refine ⟨c5_env_parsing_spec.1 "   ".data (by decide), c5_env_parsing_spec.2.2.1, ?_⟩
  rw [c5_env_parsing_spec.2.2.2.2.1 "X=1\nX=2" [] "X"]
  decide

/-! ## Claim C7 (env blob written to three files and injected into both
subprocess environments) -/

theorem data_append (a b : String) : (a ++ b).data = a.data ++ b.data := rfl

theorem eq_empty_of_data_nil (s : String) (h : s.data = []) : s = "" := by
  cases s with
  | mk d => cases h; rfl

theorem append_ne_empty_left (a b : String) (h : a ≠ "") : a ++ b ≠ "" := by
  intro hc
  apply h
  have hd : a.data ++ b.data = [] := by
    rw [← data_append, hc]
  exact eq_empty_of_data_nil a (List.append_eq_nil.mp hd).1

theorem append_ne_empty_right (a b : String) (h : b ≠ "") : a ++ b ≠ "" := by
  intro hc
  apply h
  have hd : a.data ++ b.data = [] := by
    rw [← data_append, hc]
  exact eq_empty_of_data_nil b (List.append_eq_nil.mp hd).2

theorem envLines_ne_empty (kv : String × String) (t : List (String × String)) :
    envLines (kv :: t) ≠ "" := by
  simp only [envLines]
  apply append_ne_empty_left
  apply append_ne_empty_right
  decide

/-- C7: whenever at least one variable is composed (a non-empty backend
URL, which contributes exactly the keys `REACT_APP_API_URL`,
`VITE_API_URL`, `NEXT_PUBLIC_API_URL` all counted in `envVarsCount`,
and/or valid custom lines), one identical blob is written to `.env`,
`.env.production` and `.env.local`, and the same assignments are applied
to the single `buildEnv` map passed to both the install and the build
subprocess (deployWorker.js lines 359-467). -/
theorem c7_env_injection_spec (backendUrl envVariables : String)
    (processEnv : List (String × String)) :
    ((backendUrl ≠ "" ∨ parseEnvBlock envVariables ≠ []) →
      ∃ blob, blob ≠ "" ∧
        (runEnvStage processEnv backendUrl envVariables).envFile = some blob ∧
        (runEnvStage processEnv backendUrl envVariables).envProductionFile = some blob ∧
        (runEnvStage processEnv backendUrl envVariables).envLocalFile = some blob) ∧
    (runEnvStage processEnv backendUrl envVariables).installEnv =
      (runEnvStage processEnv backendUrl envVariables).buildEnv ∧
    (backendUrl ≠ "" →
      (composeEnvironment backendUrl envVariables).2.1.take 3 =
        [("REACT_APP_API_URL", backendUrl), ("VITE_API_URL", backendUrl),
         ("NEXT_PUBLIC_API_URL", backendUrl)] ∧
      (runEnvStage processEnv backendUrl envVariables).reportedCount =
        3 + (parseEnvBlock envVariables).length) ∧
    (∀ k, (runEnvStage processEnv backendUrl envVariables).buildEnv =
        applyAssigns processEnv (composeEnvironment backendUrl envVariables).2.1 ∧
      getKey (applyAssigns processEnv (composeEnvironment backendUrl envVariables).2.1) k =
        match lastAssign (composeEnvironment backendUrl envVariables).2.1 k with
        | some v => some v
        | none => getKey processEnv k) := by
  have hcontent : (backendUrl ≠ "" ∨ parseEnvBlock envVariables ≠ []) →
      (composeEnvironment backendUrl envVariables).1 ≠ "" := by
    rintro (h | h)
    · show (_ ++ _) ≠ ""
      apply append_ne_empty_left
      show (if backendUrl = "" then "" else _) ≠ ""
      rw [if_neg h]
      apply append_ne_empty_right
      decide
    · show (_ ++ envLines (parseEnvBlock envVariables)) ≠ ""
      apply append_ne_empty_right
      rcases hp : parseEnvBlock envVariables with _ | ⟨kv, t⟩
      · exact absurd hp h
      · exact envLines_ne_empty kv t
  refine ⟨?_, ?_, ?_, ?_⟩
  · intro h
    have hc := hcontent h
    refine ⟨(composeEnvironment backendUrl envVariables).1, hc, ?_, ?_, ?_⟩ <;>
      simp [runEnvStage, hc]
  · simp only [runEnvStage]
    split <;> rfl
  · intro h
    constructor
    · simp [composeEnvironment, if_neg h]
    · simp [runEnvStage, composeEnvironment, if_neg h]
      split <;> rfl
  · intro k
    refine ⟨?_, getKey_applyAssigns _ processEnv k⟩
    simp only [runEnvStage]
    split <;> rfl

/-- Witness for `c7_env_injection_spec` at a concrete input. -/
theorem c7_env_injection_spec_witness :
    (runEnvStage [] "https://api.example" "").envFile =
      (runEnvStage [] "https://api.example" "").envProductionFile ∧
    (runEnvStage [] "https://api.example" "").reportedCount =
      3 + (parseEnvBlock "").length := by
  have h := c7_env_injection_spec "https://api.example" "" []
  obtain ⟨blob, _, h1, h2, _⟩ := h.1 (Or.inl (by decide))
  exact ⟨by rw [h1, h2], (h.2.2.1 (by decide)).2⟩

/-! ## Claim C6 (Vite config patching) -/

/-- A Vite config whose `base` option is set to a non-literal expression. -/
def cfgBaseIdent : String := "export default defineConfig(\x7b\n  base: BASE_URL,\n\x7d)\n"

/-- A Vite config with a quoted `base` literal. -/
def cfgBaseLiteral : String := "export default defineConfig(\x7b\n  base: \x27/repo/\x27,\n\x7d)\n"

/-- A Vite config without a `base` option, in `defineConfig` form. -/
def cfgNoBase : String := "export default defineConfig(\x7b\n  plugins: [],\n\x7d)\n"

/-- A Vite config without a `base` option, in plain-object form. -/
def cfgPlainObject : String := "export default \x7b\n  plugins: [],\n\x7d\n"

/-- C6 counterexample: the claim says that whenever the located config
sets a `base` option its value is rewritten to `'./'`.  The code only
replaces `base:` followed by a quoted string literal
(deployWorker.js lines 80-85): a config that sets `base` to an identifier
contains `base:` (so the injection branch is not taken either) but is
written back completely unchanged — its base is not rewritten to `'./'`. -/
theorem c6_vite_base_not_rewritten_cex :
    patchViteContent cfgBaseIdent = cfgBaseIdent ∧
    strOccurs cfgBaseIdent "base:" = true ∧
    strOccurs (patchViteContent cfgBaseIdent) "\x27./\x27" = false := by
  decide

/-- C6 amended: the patcher prefers `vite.config.js` over
`vite.config.ts`; when neither exists it creates a minimal
`vite.config.js` whose base is `'./'`; when the config contains `base:`
followed by a quoted string literal, every such literal is rewritten to
`'./'` (a non-literal `base` value is left unchanged, see the
counterexample); when it lacks `base:`, `base: './'` is injected after a
literal `defineConfig(\x7b` or `export default \x7b` occurrence. -/
theorem c6_vite_config_spec :
    (fixViteConfig none none = ("vite.config.js", newViteConfig) ∧
      strOccurs newViteConfig "base: \x27./\x27" = true) ∧
    (∀ c ts, fixViteConfig (some c) ts = ("vite.config.js", patchViteContent c)) ∧
    (∀ c, fixViteConfig none (some c) = ("vite.config.ts", patchViteContent c)) ∧
    patchViteContent cfgBaseLiteral =
      "export default defineConfig(\x7b\n  base: \x27./\x27,\n\x7d)\n" ∧
    patchViteContent cfgNoBase =
      "export default defineConfig(\x7b\n  base: \x27./\x27,\n  plugins: [],\n\x7d)\n" ∧
    patchViteContent cfgPlainObject =
      "export default \x7b\n  base: \x27./\x27,\n  plugins: [],\n\x7d\n" := by
  exact ⟨⟨rfl, by decide⟩, fun c ts => rfl, fun c => rfl, by decide, by decide, by decide⟩

/-! ## Claim C4 (progress checkpoints) -/

theorem uploadProgress_mono (n i j : Nat) (h : i ≤ j) :
    uploadProgress n i ≤ uploadProgress n j := by
  have h1 : 20 * i ≤ 20 * j := Nat.mul_le_mul_left 20 h
  have h2 : (20 * i) / n ≤ (20 * j) / n := Nat.div_le_div_right h1
  simp only [uploadProgress]
  omega

theorem uploadProgress_le_95 (n i : Nat) (h2 : i ≤ n) : uploadProgress n i ≤ 95 := by
  rcases Nat.eq_zero_or_pos n with hn | hn
  · subst hn
    simp [uploadProgress]
  · have h3 : 20 * i ≤ 20 * n := Nat.mul_le_mul_left 20 h2
    have h4 : (20 * i) / n ≤ (20 * n) / n := Nat.div_le_div_right h3
    have h5 : 20 * n / n = 20 := Nat.mul_div_cancel 20 hn
    simp only [uploadProgress]
    omega

theorem uploadProgress_final (n : Nat) (h : 1 ≤ n) : uploadProgress n n = 95 := by
  simp only [uploadProgress]
  rw [Nat.mul_div_cancel 20 h]

theorem uploadProgressSeq_mem (n v : Nat) (hv : v ∈ uploadProgressSeq n) :
    75 ≤ v ∧ v ≤ 95 := by
  rcases List.mem_map.mp hv with ⟨i, hi, rfl⟩
  have hin := List.mem_range.mp hi
  exact ⟨Nat.le_add_right 75 _, uploadProgress_le_95 n (i + 1) (by omega)⟩

theorem uploadProgressSeq_chain (n : Nat) : List.Chain' (· ≤ ·) (uploadProgressSeq n) := by
  rw [uploadProgressSeq, List.chain'_map]
  refine List.Pairwise.chain' ?_
  refine (List.pairwise_lt_range n).imp ?_
  intro a b hab
  exact uploadProgress_mono n (a + 1) (b + 1) (by omega)

theorem uploadTail_head_ge (n : Nat) :
    ∀ y ∈ (uploadProgressSeq n ++ [95, 100]).head?, 75 ≤ y := by
  cases n with
  | zero =>
    intro y hy
    simp [uploadProgressSeq] at hy
    omega
  | succ m =>
    intro y hy
    rw [uploadProgressSeq, List.range_succ_eq_map] at hy
    simp only [List.map_cons, List.cons_append, List.head?_cons, Option.mem_def,
      Option.some.injEq] at hy
    subst hy
    exact Nat.le_add_right 75 _

theorem uploadTail_chain (n : Nat) :
    List.Chain' (· ≤ ·) (uploadProgressSeq n ++ [95, 100]) := by
  rw [List.chain'_append]
  refine ⟨uploadProgressSeq_chain n, by norm_num [List.chain'_cons], ?_⟩
  intro x hx y hy
  have hx2 : x ∈ uploadProgressSeq n := by
    rcases List.mem_getLast?_eq_getLast hx with ⟨hne, hxl⟩
    rw [hxl]
    exact List.getLast_mem hne
  have hy2 : y = 95 := by simp at hy; omega
  subst hy2
  exact (uploadProgressSeq_mem n x hx2).2

theorem chainTraceAux (A : List Nat) (n : Nat) (hA : List.Chain' (· ≤ ·) A)
    (hlast : A.getLast? = some 75) :
    List.Chain' (· ≤ ·) (A ++ (uploadProgressSeq n ++ [95, 100])) := by
  rw [List.chain'_append]
  refine ⟨hA, uploadTail_chain n, ?_⟩
  intro x hx y hy
  rw [hlast] at hx
  simp only [Option.mem_def, Option.some.injEq] at hx
  subst hx
  exact uploadTail_head_ge n y hy

/-- C4 counterexample: the claim says the upload stage interpolates from
75 to 95 or from 75 to 100 depending on whether CDN invalidation is
configured.  The progress formula `75 + floor(20·uploaded/total)`
(deployWorker.js line 527) never exceeds 95 and does not depend on the
distribution id at all: with invalidation unconfigured the trace is
identical to the configured one, the upload interpolation still tops out
at 95, and 100 is only reported at the final cleanup checkpoint. -/
theorem c4_progress_upload_cex :
    progressTrace true true true 4 false =
      [5, 15, 20, 40, 50, 70, 75, 80, 85, 90, 95, 95, 100] ∧
    progressTrace true true true 4 false = progressTrace true true true 4 true ∧
    100 ∉ uploadProgressSeq 4 ∧ uploadProgress 4 4 = 95 := by
  decide

/-- C4 amended: for every run the reported progress sequence is
monotonically non-decreasing with the fixed stage checkpoints (5, clone
done 15, dependency/env setup 20-50, build done 70, artifacts located 75,
cleanup/done 100); the upload stage always interpolates from 75 to 95
(independently of whether CDN invalidation is configured), each per-file
value lying in [75, 95] and the final one equalling 95 when at least one
file is uploaded; the trace ends with 100. -/
theorem c4_progress_spec (hpj hd hb : Bool) (n : Nat) (dist : Bool) :
    List.Chain' (· ≤ ·) (progressTrace hpj hd hb n dist) ∧
    (progressTrace hpj hd hb n dist).getLast? = some 100 ∧
    progressTrace hpj hd hb n dist = progressTrace hpj hd hb n true ∧
    (∀ v ∈ uploadProgressSeq n, 75 ≤ v ∧ v ≤ 95) ∧
    (1 ≤ n → uploadProgress n n = 95) ∧
    15 ∈ progressTrace hpj hd hb n dist ∧
    75 ∈ progressTrace hpj hd hb n dist ∧
    (hpj = true → hb = true → 70 ∈ progressTrace hpj hd hb n dist) := by
  refine ⟨?_, ?_, rfl, fun v hv => uploadProgressSeq_mem n v hv,
    fun h => uploadProgress_final n h, ?_, ?_, ?_⟩
  · cases hpj <;> cases hd <;> cases hb
    · exact chainTraceAux [5, 15, 75] n (by norm_num [List.chain'_cons]) (by decide)
    · exact chainTraceAux [5, 15, 75] n (by norm_num [List.chain'_cons]) (by decide)
    · exact chainTraceAux [5, 15, 75] n (by norm_num [List.chain'_cons]) (by decide)
    · exact chainTraceAux [5, 15, 75] n (by norm_num [List.chain'_cons]) (by decide)
    · exact chainTraceAux [5, 15, 40, 50, 75] n (by norm_num [List.chain'_cons]) (by decide)
    · exact chainTraceAux [5, 15, 40, 50, 70, 75] n (by norm_num [List.chain'_cons]) (by decide)
    · exact chainTraceAux [5, 15, 20, 40, 50, 75] n (by norm_num [List.chain'_cons]) (by decide)
    · exact chainTraceAux [5, 15, 20, 40, 50, 70, 75] n (by norm_num [List.chain'_cons]) (by decide)
  · show ((_ ++ _) ++ (uploadProgressSeq n ++ [95, 100])).getLast? = some 100
    rw [← List.append_assoc]
    exact List.getLast?_append_cons _ 95 [100]
  · cases hpj <;> cases hd <;> cases hb <;> simp [progressTrace]
  · cases hpj <;> cases hd <;> cases hb <;> simp [progressTrace]
  · intro h1 h2
    subst h1; subst h2
    cases hd <;> simp [progressTrace]

/-- Witness for `c4_progress_spec` at a concrete input. -/
theorem c4_progress_spec_witness :
    List.Chain' (· ≤ ·) (progressTrace true true true 3 false) ∧
    uploadProgress 3 3 = 95 := by
  exact ⟨(c4_progress_spec true true true 3 false).1,
    (c4_progress_spec true true true 3 false).2.2.2.2.1 (by decide)⟩

/-! ## BFS lemmas shared by C3 and C8 -/

/-- Every queue entry is within the searched depth bound and its path is a
syntactic descendant of the base at that depth. -/
def QueueOK (fs : FS) (base : String) (queue : List (String × Nat)) : Prop :=
  ∀ pd ∈ queue, pd.2 ≤ 3 ∧ pd.1 ∈ levelPaths fs base pd.2

theorem queueOK_init (fs : FS) (base : String) : QueueOK fs base [(base, 0)] := by
  intro pd hpd
  simp only [List.mem_singleton] at hpd
  subst hpd
  exact ⟨by omega, by simp [levelPaths]⟩

theorem scanItems_pushes_mem (fs : FS) (target p : String) (d : Nat) :
    ∀ (items : List String) (l : List (String × Nat)),
      scanItems fs target p d items = .pushes l →
      l.length ≤ items.length ∧
        ∀ qe ∈ l, qe.2 = d + 1 ∧ d < 3 ∧ ∃ item, item ∈ items ∧ qe.1 = pathJoin p item := by
  intro items
  induction items with
  | nil =>
    intro l h
    have h' : ScanResult.pushes ([] : List (String × Nat)) = ScanResult.pushes l := h
    cases h'
    simp
  | cons item rest ih =>
    intro l h
    have step : scanItems fs target p d rest = .pushes l →
        l.length ≤ (item :: rest).length ∧
          ∀ qe ∈ l, qe.2 = d + 1 ∧ d < 3 ∧
            ∃ it, it ∈ item :: rest ∧ qe.1 = pathJoin p it := by
      intro hl'
      obtain ⟨hlen, hmem⟩ := ih l hl'
      refine ⟨le_trans hlen (Nat.le_succ _), ?_⟩
      intro qe hqe
      obtain ⟨ha, hb, it, hit, hc⟩ := hmem qe hqe
      exact ⟨ha, hb, it, List.mem_cons_of_mem _ hit, hc⟩
    simp only [scanItems] at h
    by_cases h1 : (strStarts item "." || item == "node_modules") = true
    · rw [if_pos h1] at h
      exact step h
    · rw [if_neg h1] at h
      by_cases h2 : fs.isDir (pathJoin p item) = true
      · rw [if_pos h2] at h
        by_cases h3 : (item == target) = true
        · rw [if_pos h3] at h
          exact absurd h (by simp)
        · rw [if_neg h3] at h
          by_cases h4 : d < 3
          · rw [if_pos h4] at h
            cases hs : scanItems fs target p d rest with
            | found q =>
              rw [hs] at h
              have h' : ScanResult.found q = ScanResult.pushes l := h
              exact absurd h' (by simp)
            | pushes l2 =>
              rw [hs] at h
              have h' : ScanResult.pushes ((pathJoin p item, d + 1) :: l2) =
                  ScanResult.pushes l := h
              have hl : (pathJoin p item, d + 1) :: l2 = l := by
                injection h'
              subst hl
              obtain ⟨hlen, hmem⟩ := ih l2 hs
              refine ⟨by simp; omega, ?_⟩
              intro qe hqe
              rcases List.mem_cons.mp hqe with rfl | hqe2
              · exact ⟨rfl, h4, item, List.mem_cons_self _ _, rfl⟩
              · obtain ⟨ha, hb, it, hit, hc⟩ := hmem qe hqe2
                exact ⟨ha, hb, it, List.mem_cons_of_mem _ hit, hc⟩
          · rw [if_neg h4] at h
            exact step h
      · rw [if_neg h2] at h
        exact step h

theorem scanItems_found_mem (fs : FS) (target p : String) (d : Nat) :
    ∀ (items : List String) (q : String),
      scanItems fs target p d items = .found q →
      ∃ item, item ∈ items ∧ q = pathJoin p item ∧ item = target ∧
        fs.isDir (pathJoin p item) = true ∧ strStarts item "." = false ∧
        item ≠ "node_modules" := by
  intro items
  induction items with
  | nil =>
    intro q h
    have h' : ScanResult.pushes ([] : List (String × Nat)) = ScanResult.found q := h
    exact absurd h' (by simp)
  | cons item rest ih =>
    intro q h
    have step : scanItems fs target p d rest = .found q →
        ∃ it, it ∈ item :: rest ∧ q = pathJoin p it ∧ it = target ∧
          fs.isDir (pathJoin p it) = true ∧ strStarts it "." = false ∧
          it ≠ "node_modules" := by
      intro hr
      obtain ⟨it, hit, rest'⟩ := ih q hr
      exact ⟨it, List.mem_cons_of_mem _ hit, rest'⟩
    simp only [scanItems] at h
    by_cases h1 : (strStarts item "." || item == "node_modules") = true
    · rw [if_pos h1] at h
      exact step h
    · have h1' : strStarts item "." = false ∧ item ≠ "node_modules" := by
        simp only [Bool.or_eq_true, beq_iff_eq] at h1
        push_neg at h1
        exact ⟨Bool.not_eq_true _ |>.mp h1.1, h1.2⟩
      rw [if_neg h1] at h
      by_cases h2 : fs.isDir (pathJoin p item) = true
      · rw [if_pos h2] at h
        by_cases h3 : (item == target) = true
        · rw [if_pos h3] at h
          have h' : ScanResult.found (pathJoin p item) = ScanResult.found q := h
          have hq : pathJoin p item = q := by injection h'
          exact ⟨item, List.mem_cons_self _ _, hq.symm, beq_iff_eq.mp h3, h2, h1'.1, h1'.2⟩
        · rw [if_neg h3] at h
          by_cases h4 : d < 3
          · rw [if_pos h4] at h
            cases hs : scanItems fs target p d rest with
            | found q2 =>
              rw [hs] at h
              have h' : ScanResult.found q2 = ScanResult.found q := h
              have hq : q2 = q := by injection h'
              subst hq
              exact step hs
            | pushes l2 =>
              rw [hs] at h
              have h' : ScanResult.pushes ((pathJoin p item, d + 1) :: l2) =
                  ScanResult.found q := h
              exact absurd h' (by simp)
          · rw [if_neg h4] at h
            exact step h
      · rw [if_neg h2] at h
        exact step h

theorem sum_filter_le (l : List String) (w : String → Nat) (P Q : String → Bool)
    (h : ∀ x, P x = true → Q x = true) :
    ((l.filter P).map w).sum ≤ ((l.filter Q).map w).sum := by
  induction l with
  | nil => simp
  | cons a t ih =>
    by_cases hP : P a = true
    · have hQ := h a hP
      simp only [List.filter_cons, hP, hQ, if_true, List.map_cons, List.sum_cons]
      omega
    · by_cases hQ : Q a = true <;>
        simp only [List.filter_cons, hP, hQ, if_true, if_false, Bool.false_eq_true,
          List.map_cons, List.sum_cons] <;>
        omega

theorem capacity_cons_le (fs : FS) (base p : String) (visited : List String) :
    capacity fs base (p :: visited) ≤ capacity fs base visited := by
  apply sum_filter_le
  intro x hx
  simp only [Bool.not_eq_true'] at hx ⊢
  rw [List.contains_cons] at hx
  exact (Bool.or_eq_false_iff.mp hx).2

theorem sum_filter_remove (w : String → Nat) (visited : List String) (p : String)
    (hv : visited.contains p = false) :
    ∀ l : List String, p ∈ l →
      ((l.filter (fun q => !(p :: visited).contains q)).map w).sum + w p ≤
        ((l.filter (fun q => !visited.contains q)).map w).sum := by
  intro l hl
  induction l with
  | nil => cases hl
  | cons a t ih =>
    have hmono : ∀ x, (!(p :: visited).contains x) = true → (!visited.contains x) = true := by
      intro x hx
      simp only [Bool.not_eq_true'] at hx ⊢
      rw [List.contains_cons] at hx
      exact (Bool.or_eq_false_iff.mp hx).2
    by_cases hap : a = p
    · subst hap
      have h1 : (!(a :: visited).contains a) = false := by
        simp only [List.contains_cons, beq_self_eq_true, Bool.true_or, Bool.not_true]
      have h2 : (!visited.contains a) = true := by
        simp only [Bool.not_eq_true']
        exact hv
      simp only [List.filter_cons, h1, h2, if_true, if_false, Bool.false_eq_true,
        List.map_cons, List.sum_cons]
      have hle := sum_filter_le t w _ _ hmono
      omega
    · have hmem : p ∈ t := by
        rcases List.mem_cons.mp hl with h | h
        · exact absurd h.symm hap
        · exact h
      have hih := ih hmem
      have heq : ((p :: visited).contains a) = (visited.contains a) := by
        rw [List.contains_cons]
        have : (a == p) = false := beq_eq_false_iff_ne.mpr hap
        simp [this]
      by_cases hc : (!visited.contains a) = true
      · have hc1 : (!(p :: visited).contains a) = true := by rw [heq]; exact hc
        simp only [List.filter_cons, hc, hc1, if_true, List.map_cons, List.sum_cons]
        omega
      · have hc1 : (!(p :: visited).contains a) = false := by
          rw [Bool.not_eq_true] at hc
          rw [heq]
          exact hc
        have hc2 : (!visited.contains a) = false := by
          rw [Bool.not_eq_true] at hc
          exact hc
        simp only [List.filter_cons, hc1, hc2, if_false, Bool.false_eq_true]
        omega

theorem mem_allSearchPaths (fs : FS) (base p : String) (d : Nat)
    (hd : d ≤ 3) (hp : p ∈ levelPaths fs base d) : p ∈ allSearchPaths fs base := by
  interval_cases d <;> simp [allSearchPaths] <;> tauto

theorem capacity_remove (fs : FS) (base : String) (visited : List String) (p : String)
    (hp : p ∈ allSearchPaths fs base) (hv : visited.contains p = false) :
    capacity fs base (p :: visited) + entryWeight fs p ≤ capacity fs base visited :=
  sum_filter_remove (entryWeight fs) visited p hv (allSearchPaths fs base) hp

theorem queueOK_pushes (fs : FS) (base target p : String) (d : Nat) (items : List String)
    (newItems : List (String × Nat))
    (hp : p ∈ levelPaths fs base d)
    (hrd : fs.readdir p = some items)
    (hscan : scanItems fs target p d items = .pushes newItems) :
    QueueOK fs base newItems := by
  intro qe hqe
  obtain ⟨hdep, hd3, item, hitem, hpath⟩ :=
    (scanItems_pushes_mem fs target p d items newItems hscan).2 qe hqe
  refine ⟨by omega, ?_⟩
  rw [hdep, hpath]
  show pathJoin p item ∈ levelPaths fs base (d + 1)
  simp only [levelPaths, List.mem_flatMap]
  refine ⟨p, hp, ?_⟩
  rw [hrd]
  exact List.mem_map_of_mem _ hitem

theorem queueOK_tail (fs : FS) (base : String) (pd : String × Nat)
    (rest : List (String × Nat)) (hq : QueueOK fs base (pd :: rest)) :
    QueueOK fs base rest :=
  fun x hx => hq x (List.mem_cons_of_mem _ hx)

theorem queueOK_append (fs : FS) (base : String) (q1 q2 : List (String × Nat))
    (h1 : QueueOK fs base q1) (h2 : QueueOK fs base q2) :
    QueueOK fs base (q1 ++ q2) := by
  intro x hx
  rcases List.mem_append.mp hx with h | h
  · exact h1 x h
  · exact h2 x h

/-- With fuel exceeding the measure `queue.length + capacity`, the real
`while` loop always reaches one of its `return` statements (it does not
exhaust the fuel): this is the termination argument for the BFS, valid for
every filesystem, including symlink-cycle ones where the syntactic tree is
infinite — the depth bound and the visited set bound the processed work. -/
theorem sffLoop_completes (fs : FS) (base target : String) :
    ∀ (fuel : Nat) (queue : List (String × Nat)) (visited : List String),
      QueueOK fs base queue →
      queue.length + capacity fs base visited < fuel →
      ∃ r, sffLoop fs target fuel queue visited = some r := by
  intro fuel
  induction fuel with
  | zero => intro queue visited _ hm; omega
  | succ f ih =>
    intro queue visited hq hm
    cases queue with
    | nil => exact ⟨none, rfl⟩
    | cons pd rest =>
      obtain ⟨p, d⟩ := pd
      have hqrest : QueueOK fs base rest := queueOK_tail fs base (p, d) rest hq
      simp only [List.length_cons] at hm
      by_cases hskip : (d > 3 || visited.contains p) = true
      · have hstep : sffLoop fs target (f + 1) ((p, d) :: rest) visited =
            sffLoop fs target f rest visited := by
          simp only [sffLoop]
          rw [if_pos hskip]
        rw [hstep]
        exact ih rest visited hqrest (by omega)
      · have hvis : visited.contains p = false := by
          simp only [Bool.or_eq_true, not_or] at hskip
          exact Bool.not_eq_true _ |>.mp hskip.2
        have hd3 : d ≤ 3 := (hq (p, d) (List.mem_cons_self _ _)).1
        have hlvl : p ∈ levelPaths fs base d := (hq (p, d) (List.mem_cons_self _ _)).2
        have hall : p ∈ allSearchPaths fs base := mem_allSearchPaths fs base p d hd3 hlvl
        cases hrd : fs.readdir p with
        | none =>
          have hstep : sffLoop fs target (f + 1) ((p, d) :: rest) visited =
              sffLoop fs target f rest (p :: visited) := by
            simp only [sffLoop]
            rw [if_neg hskip, hrd]
          rw [hstep]
          have hcap := capacity_cons_le fs base p visited
          exact ih rest (p :: visited) hqrest (by omega)
        | some items =>
          cases hscan : scanItems fs target p d items with
          | found q =>
            refine ⟨some q, ?_⟩
            simp only [sffLoop]
            rw [if_neg hskip, hrd]
            dsimp only
            rw [hscan]
          | pushes newItems =>
            have hstep : sffLoop fs target (f + 1) ((p, d) :: rest) visited =
                sffLoop fs target f (rest ++ newItems) (p :: visited) := by
              simp only [sffLoop]
              rw [if_neg hskip, hrd]
              dsimp only
              rw [hscan]
            rw [hstep]
            have hqall : QueueOK fs base (rest ++ newItems) :=
              queueOK_append fs base rest newItems hqrest
                (queueOK_pushes fs base target p d items newItems hlvl hrd hscan)
            have hlen : newItems.length ≤ items.length :=
              (scanItems_pushes_mem fs target p d items newItems hscan).1
            have hw : entryWeight fs p = items.length := by
              simp [entryWeight, hrd]
            have hcap := capacity_remove fs base visited p hall hvis
            refine ih (rest ++ newItems) (p :: visited) hqall ?_
            rw [List.length_append]
            omega

/-- Whenever the loop returns a found path, that path is a directory named
`target` joined under a path at depth at most 3, it is not hidden and not
`node_modules`, and it was listed by `readdir` of its parent. -/
theorem sffLoop_found_props (fs : FS) (base target : String) :
    ∀ (fuel : Nat) (queue : List (String × Nat)) (visited : List String) (q : String),
      QueueOK fs base queue →
      sffLoop fs target fuel queue visited = some (some q) →
      ∃ d, d ≤ 3 ∧ ∃ p, p ∈ levelPaths fs base d ∧
        ∃ item, item ∈ (fs.readdir p).getD [] ∧ q = pathJoin p item ∧ item = target ∧
          fs.isDir q = true ∧ strStarts item "." = false ∧ item ≠ "node_modules" := by
  intro fuel
  induction fuel with
  | zero =>
    intro queue visited q _ h
    exact Option.noConfusion h
  | succ f ih =>
    intro queue visited q hq h
    cases queue with
    | nil =>
      have h' : (some none : Option (Option String)) = some (some q) := h
      simp at h'
    | cons pd rest =>
      obtain ⟨p, d⟩ := pd
      have hqrest : QueueOK fs base rest := queueOK_tail fs base (p, d) rest hq
      simp only [sffLoop] at h
      by_cases hskip : (d > 3 || visited.contains p) = true
      · rw [if_pos hskip] at h
        exact ih rest visited q hqrest h
      · rw [if_neg hskip] at h
        have hd3 : d ≤ 3 := (hq (p, d) (List.mem_cons_self _ _)).1
        have hlvl : p ∈ levelPaths fs base d := (hq (p, d) (List.mem_cons_self _ _)).2
        cases hrd : fs.readdir p with
        | none =>
          rw [hrd] at h
          exact ih rest (p :: visited) q hqrest h
        | some items =>
          rw [hrd] at h
          dsimp only at h
          cases hscan : scanItems fs target p d items with
          | found q2 =>
            rw [hscan] at h
            have hq2 : q2 = q := by
              have h' : (some (some q2) : Option (Option String)) = some (some q) := h
              simp at h'
              exact h'
            subst hq2
            obtain ⟨item, hitem, hpath, htgt, hdir, hdot, hnm⟩ :=
              scanItems_found_mem fs target p d items q2 hscan
            refine ⟨d, hd3, p, hlvl, item, ?_, hpath, htgt, by rw [hpath]; exact hdir, hdot, hnm⟩
            rw [hrd]
            exact hitem
          | pushes newItems =>
            rw [hscan] at h
            have hqall : QueueOK fs base (rest ++ newItems) :=
              queueOK_append fs base rest newItems hqrest
                (queueOK_pushes fs base target p d items newItems hlvl hrd hscan)
            exact ih (rest ++ newItems) (p :: visited) q hqall h

/-- A directory named `target` is absent from the searched portion of the
tree: no `readdir` entry at depth 0 through 3 that is a directory carries
that name. -/
def AbsentDir (fs : FS) (base target : String) : Prop :=
  ∀ d, d ≤ 3 → ∀ p ∈ levelPaths fs base d, ∀ item ∈ (fs.readdir p).getD [],
    fs.isDir (pathJoin p item) = true → item ≠ target

theorem capacity_nil (fs : FS) (base : String) :
    capacity fs base [] = ((allSearchPaths fs base).map (entryWeight fs)).sum := by
  simp [capacity]

theorem searchForFolderRaw_completes (fs : FS) (base target : String) :
    ∃ r, searchForFolderRaw fs base target = some r := by
  apply sffLoop_completes fs base target (searchFuel fs base) [(base, 0)] []
    (queueOK_init fs base)
  rw [capacity_nil]
  simp [searchFuel]

theorem searchForFolder_eq_some (fs : FS) (base target q : String)
    (h : searchForFolder fs base target = some q) :
    searchForFolderRaw fs base target = some (some q) := by
  unfold searchForFolder at h
  cases hr : searchForFolderRaw fs base target with
  | none => rw [hr] at h; simp at h
  | some r => rw [hr] at h; simp at h; rw [h]

/-! ## Claim C3 (build-root resolution) -/

/-- C3: build-root resolution (deployWorker.js lines 291-320).  An empty
or blank build path returns the clone root unchanged; otherwise the
literal join of clone root and path wins when it exists and is a
directory; otherwise the bounded breadth-first search result is used — the
search skips hidden entries and `node_modules` and visits each path at
most once, so any path it returns is a non-hidden directory named exactly
`buildPath` that some `readdir` at depth `d ≤ 3 = MAX_DEPTH` listed (a
target starting with `.` is therefore never found); and when the search
exhausts, the resolution fails with the `Folder "<buildPath>" not found`
error whose context lists the top-level directory names actually
present. -/
theorem c3_build_root_resolution_spec (fs : FS) (root bp : String) :
    (trimStr bp = "" → resolveBuildRoot fs root bp = .ok root) ∧
    (trimStr bp ≠ "" →
      (fs.existsAt (pathJoin root bp) && fs.isDir (pathJoin root bp)) = true →
      resolveBuildRoot fs root bp = .ok (pathJoin root bp)) ∧
    (∀ q, trimStr bp ≠ "" →
      (fs.existsAt (pathJoin root bp) && fs.isDir (pathJoin root bp)) = false →
      searchForFolder fs root bp = some q →
      resolveBuildRoot fs root bp = .ok q ∧
        ∃ par, q = pathJoin par bp ∧ fs.isDir q = true ∧
          ∃ d, d ≤ 3 ∧ q ∈ levelPaths fs root (d + 1)) ∧
    (strStarts bp "." = true → searchForFolder fs root bp = none) ∧
    (trimStr bp ≠ "" →
      (fs.existsAt (pathJoin root bp) && fs.isDir (pathJoin root bp)) = false →
      searchForFolder fs root bp = none →
      resolveBuildRoot fs root bp =
        .error (bp,
          ((fs.readdir root).getD []).filter (fun f => fs.isDir (pathJoin root f)))) := by
  have hfound : ∀ q, searchForFolder fs root bp = some q →
      ∃ par, q = pathJoin par bp ∧ fs.isDir q = true ∧
        ∃ d, d ≤ 3 ∧ q ∈ levelPaths fs root (d + 1) := by
    intro q hs
    obtain ⟨d, hd, p, hp, item, hitem, hpath, htgt, hdir, hdot, hnm⟩ :=
      sffLoop_found_props fs root bp (searchFuel fs root) [(root, 0)] [] q
        (queueOK_init fs root) (searchForFolder_eq_some fs root bp q hs)
    subst htgt
    refine ⟨p, hpath, hdir, d, hd, ?_⟩
    rw [hpath]
    simp only [levelPaths, List.mem_flatMap]
    exact ⟨p, hp, List.mem_map_of_mem _ hitem⟩
  refine ⟨?_, ?_, ?_, ?_, ?_⟩
  · intro h
    simp [resolveBuildRoot, h]
  · intro h1 h2
    simp only [resolveBuildRoot]
    rw [if_neg h1, if_pos h2]
  · intro q h1 h2 hs
    have h2' : ¬ ((fs.existsAt (pathJoin root bp) && fs.isDir (pathJoin root bp)) = true) := by
      rw [h2]
      simp
    refine ⟨?_, hfound q hs⟩
    simp only [resolveBuildRoot]
    rw [if_neg h1, if_neg h2', hs]
  · intro hdot
    cases hs : searchForFolder fs root bp with
    | none => rfl
    | some q =>
      obtain ⟨d, hd, p, hp, item, hitem, hpath, htgt, hdir, hdot2, hnm⟩ :=
        sffLoop_found_props fs root bp (searchFuel fs root) [(root, 0)] [] q
          (queueOK_init fs root) (searchForFolder_eq_some fs root bp q hs)
      subst htgt
      simp [hdot] at hdot2
  · intro h1 h2 hs
    have h2' : ¬ ((fs.existsAt (pathJoin root bp) && fs.isDir (pathJoin root bp)) = true) := by
      rw [h2]
      simp
    simp only [resolveBuildRoot]
    rw [if_neg h1, if_neg h2', hs]

/-- Concrete three-level filesystem used as the C3 witness: the target
`frontend` sits two levels below the root. -/
def dirsA : List String := ["/r", "/r/src", "/r/src/frontend"]

def fsA : FS := {
  readdir := fun p =>
    if p = "/r" then some ["src", "README.md"]
    else if p = "/r/src" then some ["frontend"]
    else if p = "/r/src/frontend" then some []
    else none,
  isDir := fun p => dirsA.contains p,
  existsAt := fun p => dirsA.contains p || p == "/r/README.md" }

/-- Witness for `c3_build_root_resolution_spec` at concrete inputs. -/
theorem c3_build_root_resolution_spec_witness :
    resolveBuildRoot fsA "/r" "frontend" = .ok "/r/src/frontend" ∧
    resolveBuildRoot fsA "/r" "" = .ok "/r" := by
  refine ⟨((c3_build_root_resolution_spec fsA "/r" "frontend").2.2.1 "/r/src/frontend"
    (by decide) (by decide) (by decide)).1,
    (c3_build_root_resolution_spec fsA "/r" "").1 (by decide)⟩

/-! ## Claim C8 (search termination and BuildRootNotFound) -/

/-- C8: for every filesystem — `readdir` is an arbitrary function, so the
model covers symlink cycles where the syntactic directory tree is
infinite — the BFS loop terminates (with the supplied fuel it always
reaches one of the loop's `return` statements; the visited set and the
depth bound cap the processed work, which is the measure used in
`sffLoop_completes`), and when no directory named `target` exists in the
searched tree the search returns `none` and the build-root resolution
fails with the `Folder not found` error rather than hanging or returning
a path. -/
theorem c8_search_terminates_spec (fs : FS) (base target : String) :
    (∃ r, searchForFolderRaw fs base target = some r) ∧
    (AbsentDir fs base target → searchForFolder fs base target = none) ∧
    (AbsentDir fs base target → trimStr target ≠ "" →
      (fs.existsAt (pathJoin base target) && fs.isDir (pathJoin base target)) = false →
      resolveBuildRoot fs base target =
        .error (target,
          ((fs.readdir base).getD []).filter (fun f => fs.isDir (pathJoin base f)))) := by
  have hnone : AbsentDir fs base target → searchForFolder fs base target = none := by
    intro habs
    cases hs : searchForFolder fs base target with
    | none => rfl
    | some q =>
      obtain ⟨d, hd, p, hp, item, hitem, hpath, htgt, hdir, hdot, hnm⟩ :=
        sffLoop_found_props fs base target (searchFuel fs base) [(base, 0)] [] q
          (queueOK_init fs base) (searchForFolder_eq_some fs base target q hs)
      have hdir2 : fs.isDir (pathJoin p item) = true := by
        rw [← hpath]
        exact hdir
      exact absurd htgt (habs d hd p hp item hitem hdir2)
  refine ⟨searchForFolderRaw_completes fs base target, hnone, ?_⟩
  intro habs h1 h2
  have h2' : ¬ ((fs.existsAt (pathJoin base target) && fs.isDir (pathJoin base target)) = true) := by
    rw [h2]
    simp
  simp only [resolveBuildRoot]
  rw [if_neg h1, if_neg h2', hnone habs]

/-- Witness for `c8_search_terminates_spec` at a concrete input. -/
theorem c8_search_terminates_spec_witness :
    searchForFolder fsNone "/r" "frontend" = none ∧
    resolveBuildRoot fsNone "/r" "frontend" = .error ("frontend", []) := by
  have habs : AbsentDir fsNone "/r" "frontend" :=
    fun _ _ p _ item hitem _ => absurd hitem (List.not_mem_nil item)
  refine ⟨(c8_search_terminates_spec fsNone "/r" "frontend").2.1 habs, ?_⟩
  exact (c8_search_terminates_spec fsNone "/r" "frontend").2.2 habs (by decide) (by decide)

end Deployer
